import Mathlib

/-!
Shallow embedding of the study-schema cache and bulk-prefetch subsystem of
`src/lib/tv/studies.ts`, together with the clear-all loops of the chart
bridge in the same file.  JavaScript strings are modelled by `String`,
JS `Map` objects by insertion-ordered association lists, thrown exceptions
by `Except String`, and the widget handle by an explicit record of the
optional accessor functions the code probes for.
-/

/-! ## JavaScript string primitives -/

/-- Model of JS `String.prototype.toLowerCase` (ASCII-faithful). -/
def jsToLower (s : String) : String := String.mk (s.data.map Char.toLower)

/-- Drop leading whitespace characters from a character list. -/
def dropLeadingWs : List Char → List Char
  | [] => []
  | c :: cs => if c.isWhitespace then dropLeadingWs cs else c :: cs

/-- Model of JS `String.prototype.trim`: strip whitespace at both ends. -/
def jsTrim (s : String) : String :=
  String.mk (((dropLeadingWs s.data).reverse |> dropLeadingWs).reverse)

/-- Is `sub` a contiguous infix of `l`? -/
def infixAt : List Char → List Char → Bool
  | sub, [] => sub.isEmpty
  | sub, c :: rest => sub.isPrefixOf (c :: rest) || infixAt sub rest

/-- Model of JS `haystack.includes(needle)`. -/
def jsIncludes (s sub : String) : Bool := infixAt sub.data s.data

/-- Model of JS `String(x)` on a possibly-missing (undefined) string value:
`String(undefined)` is the literal string `"undefined"`. -/
def jsString : Option String → String
  | none => "undefined"
  | some s => s

/-! ## Insertion-ordered map (JS `Map`) -/

/-- JS `Map.prototype.get`: first (unique) binding of a key. -/
def mapGet {β : Type} : List (String × β) → String → Option β
  | [], _ => none
  | (k', v) :: rest, k => if k' = k then some v else mapGet rest k

/-- JS `Map.prototype.set`: replace in place, else append at the end
(insertion order preserved). -/
def mapSet {β : Type} : List (String × β) → String → β → List (String × β)
  | [], k, v => [(k, v)]
  | (k', v') :: rest, k, v =>
      if k' = k then (k, v) :: rest else (k', v') :: mapSet rest k v

/-- JS `Map.prototype.delete`: remove the (unique) binding of a key. -/
def mapDelete {β : Type} : List (String × β) → String → List (String × β)
  | [], _ => []
  | (k', v') :: rest, k => if k' = k then rest else (k', v') :: mapDelete rest k

/-! ## Data model (`studies.ts` lines 5-33) -/

/-- `StudyInputInformation` from `studies.ts`. -/
structure StudyInputInformation where
  id : String
  name : String
  localizedName : String
  type : String
deriving DecidableEq

/-- `StudySchema` from `studies.ts`. -/
structure StudySchema where
  name : String
  inputs : List StudyInputInformation
deriving DecidableEq

/-- `CacheEntry` tagged union from `studies.ts`. -/
inductive CacheEntry where
  | ok (schema : StudySchema)
  | err (error : String)
deriving DecidableEq

/-- The module-level `cache` map, made explicit state. -/
abbrev Cache := List (String × CacheEntry)

/-- `keyOf` from `studies.ts`: `studyName.trim().toLowerCase()`. -/
def keyOf (studyName : String) : String := jsToLower (jsTrim studyName)

/-! ## Widget environment

`getWidget()` probes `window` for a handle; its result is modelled by an
explicit `Option Widget` argument.  A raw accessor call either throws
(`Except.error` with the thrown message) or yields a raw JS value, which
for the normalization step is either a non-array value (including
`undefined`) or an array of raw input objects with possibly-missing
string fields. -/

/-- A raw input element as returned by the widget accessor; each field may
be absent (`undefined`). -/
structure RawInput where
  id : Option String
  name : Option String
  localizedName : Option String
  type : Option String
deriving DecidableEq

/-- The raw value produced by a widget accessor call. -/
inductive RawResult where
  | notArray
  | arr (elems : List RawInput)
deriving DecidableEq

/-- The widget handle: each accessor shape the code probes
(`w.getStudyInputs`, `w.activeChart().getStudyInputs`) is either absent or
a function that may throw. -/
structure Widget where
  getStudyInputs : Option (String → Except String RawResult)
  activeChartGetStudyInputs : Option (String → Except String RawResult)

/-- The accessor-probing part of `getStudySchema` (lines 54-66): first
`w.getStudyInputs`, else `w.activeChart().getStudyInputs`, else `inputs`
stays `undefined` (a non-array value). -/
def fetchRaw (w : Widget) (studyName : String) : Except String RawResult :=
  match w.getStudyInputs with
  | some f => f studyName
  | none =>
      match w.activeChartGetStudyInputs with
      | some f => f studyName
      | none => Except.ok RawResult.notArray

/-! ## Normalization (`studies.ts` lines 67-74) -/

/-- Per-element normalization: `id: String(i.id)`,
`name: String(i.name ?? "")`, `localizedName: String(i.localizedName ?? i.name ?? "")`,
`type: String(i.type ?? "")`. -/
def normalizeInput (i : RawInput) : StudyInputInformation :=
  { id := jsString i.id
    name := i.name.getD ""
    localizedName := i.localizedName.getD (i.name.getD "")
    type := i.type.getD "" }

/-- `if (!Array.isArray(inputs)) inputs = []` followed by the `map`. -/
def normalizeRaw : RawResult → List StudyInputInformation
  | RawResult.notArray => []
  | RawResult.arr elems => elems.map normalizeInput

/-! ## getStudySchema (`studies.ts` lines 39-79) -/

/-- The error string of line 49. -/
def widgetUnavailableMsg : String := "TradingView widget not available"

/-- The error string of line 63 (template literal as concatenation). -/
def fetchFailedMsg (studyName msg : String) : String :=
  "getStudyInputs failed for \"" ++ studyName ++ "\": " ++ msg

/-- Outcome of one `getStudySchema` call: the returned value or thrown
error, the cache state afterwards, and whether control went past the cache
lookup to probe the widget at all. -/
structure SchemaCall where
  result : Except String StudySchema
  cache : Cache
  probed : Bool

/-- `getStudySchema` from `studies.ts`, with the module cache and the
`getWidget()` result made explicit.  Cache hits (success or failure)
return before the widget is touched; on a miss the widget is resolved,
the accessor consulted, and both success and failure are cached. -/
def getStudySchema (w? : Option Widget) (cache : Cache) (studyName : String) :
    SchemaCall :=
  let k := keyOf studyName
  match mapGet cache k with
  | some (CacheEntry.ok schema) => ⟨Except.ok schema, cache, false⟩
  | some (CacheEntry.err e) => ⟨Except.error e, cache, false⟩
  | none =>
      match w? with
      | none =>
          ⟨Except.error widgetUnavailableMsg,
           mapSet cache k (CacheEntry.err widgetUnavailableMsg), true⟩
      | some w =>
          match fetchRaw w studyName with
          | Except.error msg =>
              let e := fetchFailedMsg studyName msg
              ⟨Except.error e, mapSet cache k (CacheEntry.err e), true⟩
          | Except.ok raw =>
              let schema : StudySchema := ⟨studyName, normalizeRaw raw⟩
              ⟨Except.ok schema, mapSet cache k (CacheEntry.ok schema), true⟩

/-- `hasStudy` from `studies.ts` (lines 82-85). -/
def hasStudy (studyName : String) (cache : Cache) : Bool :=
  match mapGet cache (keyOf studyName) with
  | some (CacheEntry.ok _) => true
  | _ => false

/-- `peekStudySchema` from `studies.ts` (lines 88-91). -/
def peekStudySchema (studyName : String) (cache : Cache) : Option StudySchema :=
  match mapGet cache (keyOf studyName) with
  | some (CacheEntry.ok schema) => some schema
  | _ => none

/-- `clearStudyCache` from `studies.ts` (lines 94-97).  JS truthiness: a
missing argument or the empty string clears the whole cache. -/
def clearStudyCache (studyName? : Option String) (cache : Cache) : Cache :=
  match studyName? with
  | none => []
  | some n => if n = "" then [] else mapDelete cache (keyOf n)

/-! ## searchCachedInputs (`studies.ts` lines 160-181) -/

/-- Loop body for one cache entry: skip failures; if the study name
matches, emit every input; otherwise emit the inputs whose name,
localizedName or id matches. -/
def searchEntry (q : String) (entry : String × CacheEntry) :
    List (String × StudyInputInformation) :=
  match entry.2 with
  | CacheEntry.err _ => []
  | CacheEntry.ok schema =>
      if jsIncludes (jsToLower schema.name) q then
        schema.inputs.map (fun i => (schema.name, i))
      else
        (schema.inputs.filter (fun i =>
            jsIncludes (jsToLower i.name) q ||
            jsIncludes (jsToLower i.localizedName) q ||
            jsIncludes (jsToLower i.id) q)).map (fun i => (schema.name, i))

/-- The `for (const [, entry] of cache)` loop, accumulating hits in
iteration (insertion) order. -/
def searchLoop (q : String) : Cache → List (String × StudyInputInformation)
  | [] => []
  | entry :: rest => searchEntry q entry ++ searchLoop q rest

/-- `searchCachedInputs` from `studies.ts`: lowercases and trims the
query, then scans the cache. -/
def searchCachedInputs (query : String) (cache : Cache) :
    List (String × StudyInputInformation) :=
  searchLoop (jsToLower (jsTrim query)) cache

/-- Spec-side description for C6: all inputs of all successfully cached
studies, in cache order. -/
def allCachedInputs : Cache → List (String × StudyInputInformation)
  | [] => []
  | (_, CacheEntry.err _) :: rest => allCachedInputs rest
  | (_, CacheEntry.ok schema) :: rest =>
      schema.inputs.map (fun i => (schema.name, i)) ++ allCachedInputs rest

/-! ## prefetchStudySchemas (`studies.ts` lines 103-137)

The worker pool is modelled as a transition system over the shared state
visible in the source: the shared claim index `idx`, the indices claimed
by a worker but whose `getStudySchema` call has not yet settled
(`pending`), and the `success` / `failed` accumulators.  The source claims
an item with `const current = studies[idx++]` atomically (no `await`
between the loop guard and the increment), then awaits the fetch, and the
`try`/`catch` guarantees each claimed item is recorded exactly once, as a
success or as a failure.  The oracle `outcome` decides which, and `errOf`
supplies the recorded error message; both are arbitrary, covering every
widget and cache behaviour.  `workers` bounds how many claims can be
in flight, which is how `Promise.all(Array.from({length}, worker))`
bounds concurrency. -/

/-- Shared mutable state of `prefetchStudySchemas` while the workers run. -/
structure PrefetchState where
  idx : Nat
  pending : List Nat
  success : List String
  failed : List (String × String)
deriving DecidableEq

/-- State when the workers start: `idx = 0`, nothing claimed or recorded. -/
def initState : PrefetchState := ⟨0, [], [], []⟩

/-- `studies[i]` (always in bounds when claimed). -/
def nameAt (studies : List String) (i : Nat) : String := studies.getD i ""

/-- One cooperative step of the worker pool. -/
inductive PStep (studies : List String) (outcome : Nat → Bool) (errOf : Nat → String)
    (workers : Nat) : PrefetchState → PrefetchState → Prop where
  | claim (s : PrefetchState) (h : s.idx < studies.length)
      (hw : s.pending.length < workers) :
      PStep studies outcome errOf workers s
        ⟨s.idx + 1, s.idx :: s.pending, s.success, s.failed⟩
  | completeOk (s : PrefetchState) (i : Nat) (hi : i ∈ s.pending)
      (ho : outcome i = true) :
      PStep studies outcome errOf workers s
        ⟨s.idx, s.pending.erase i, s.success ++ [nameAt studies i], s.failed⟩
  | completeErr (s : PrefetchState) (i : Nat) (hi : i ∈ s.pending)
      (ho : outcome i = false) :
      PStep studies outcome errOf workers s
        ⟨s.idx, s.pending.erase i, s.success, s.failed ++ [(nameAt studies i, errOf i)]⟩

/-- The state in which `Promise.all` resolves: every item claimed and every
claimed item settled. -/
def Finished (studies : List String) (s : PrefetchState) : Prop :=
  s.idx = studies.length ∧ s.pending = []

/-- Invariant of the worker pool: claimed-but-unsettled indices are
distinct and below `idx`, and the recorded names plus the in-flight names
are exactly the names of the first `idx` studies. -/
def PrefetchInv (studies : List String) (s : PrefetchState) : Prop :=
  s.pending.Nodup ∧ (∀ i ∈ s.pending, i < s.idx) ∧ s.idx ≤ studies.length ∧
    (s.success : Multiset String) + (s.failed.map Prod.fst : Multiset String)
        + (s.pending.map (nameAt studies) : Multiset String)
      = ((List.range s.idx).map (nameAt studies) : Multiset String)

/-- `Math.max(1, opts.concurrency ?? 8)` capped by `Math.min(·, total)`
when building the worker array (lines 115 and 134). -/
def numWorkers (concurrency? : Option Int) (total : Nat) : Int :=
  min (max 1 (concurrency?.getD 8)) (total : Int)

/-! ## Clear-all loops (`clearAllIndicators`, `clearAllPatterns`,
`clearAllPriceTargets`)

The applied-entity tables are `Map`s from generated keys to opaque widget
handles; `chartRef.removeEntity` may throw, modelled as a function into
`Except String Unit`.  Each loop iteration attempts the removal inside
`try`/`catch` (the outcome is recorded, never propagated), and after the
loop the table is cleared unconditionally.  `chartRef` being `null` makes
the function return early without touching the table. -/

/-- The `for (const [name, entity] of table)` loop: attempt every removal,
recording each handle and its outcome. -/
def clearAllLoop {alpha : Type} (removeEntity : alpha → Except String Unit) :
    List (String × alpha) → List (alpha × Except String Unit)
  | [] => []
  | entry :: rest => (entry.2, removeEntity entry.2) :: clearAllLoop removeEntity rest

/-- Common body of the three clear-all functions: returns the attempted
removals (with their outcomes) and the table state on return. -/
def clearAllEntities {alpha : Type} (removeEntity? : Option (alpha → Except String Unit))
    (table : List (String × alpha)) :
    List (alpha × Except String Unit) × List (String × alpha) :=
  match removeEntity? with
  | none => ([], table)
  | some removeEntity => (clearAllLoop removeEntity table, [])

/-- `clearAllIndicators` (lines 400-412). -/
def clearAllIndicators {alpha : Type} (removeEntity? : Option (alpha → Except String Unit))
    (table : List (String × alpha)) :
    List (alpha × Except String Unit) × List (String × alpha) :=
  clearAllEntities removeEntity? table

/-- `clearAllPatterns` (lines 712-724). -/
def clearAllPatterns {alpha : Type} (removeEntity? : Option (alpha → Except String Unit))
    (table : List (String × alpha)) :
    List (alpha × Except String Unit) × List (String × alpha) :=
  clearAllEntities removeEntity? table

/-- `clearAllPriceTargets` (lines 963-975). -/
def clearAllPriceTargets {alpha : Type} (removeEntity? : Option (alpha → Except String Unit))
    (table : List (String × alpha)) :
    List (alpha × Except String Unit) × List (String × alpha) :=
  clearAllEntities removeEntity? table

/-! ## Map lemmas -/

theorem mapGet_mapSet_self {β : Type} (c : List (String × β)) (k : String) (v : β) :
    mapGet (mapSet c k v) k = some v := by
  induction c with
  | nil => simp [mapGet, mapSet]
  | cons e rest ih =>
      obtain ⟨k', v'⟩ := e
      by_cases h : k' = k
      · subst h; simp [mapGet, mapSet]
      · simp [mapGet, mapSet, h, ih]

theorem mapGet_mapSet_ne {β : Type} (c : List (String × β)) (k k2 : String) (v : β)
    (h : k2 ≠ k) : mapGet (mapSet c k v) k2 = mapGet c k2 := by
  have hne : ¬ k = k2 := fun he => h he.symm
  induction c with
  | nil => simp [mapGet, mapSet, hne]
  | cons e rest ih =>
      obtain ⟨k', v'⟩ := e
      by_cases hk : k' = k
      · subst hk; simp [mapGet, mapSet, hne]
      · by_cases hk2 : k' = k2
        · subst hk2; simp [mapGet, mapSet, hk]
        · simp [mapGet, mapSet, hk, hk2, ih]

theorem mapGet_mapDelete_ne {β : Type} (c : List (String × β)) (k k2 : String)
    (h : k2 ≠ k) : mapGet (mapDelete c k) k2 = mapGet c k2 := by
  induction c with
  | nil => simp [mapDelete]
  | cons e rest ih =>
      obtain ⟨k', v'⟩ := e
      by_cases hk : k' = k
      · subst hk
        have hne : ¬ k' = k2 := fun he => h he.symm
        simp [mapDelete, mapGet, hne]
      · by_cases hk2 : k' = k2
        · subst hk2; simp [mapDelete, hk, mapGet]
        · simp [mapDelete, hk, mapGet, hk2, ih]

theorem mapDelete_mapSet_of_miss {β : Type} (c : List (String × β)) (k : String) (v : β)
    (h : mapGet c k = none) : mapDelete (mapSet c k v) k = c := by
  induction c with
  | nil => simp [mapSet, mapDelete]
  | cons e rest ih =>
      obtain ⟨k', v'⟩ := e
      by_cases hk : k' = k
      · subst hk; simp [mapGet] at h
      · simp only [mapGet, if_neg hk] at h
        simp [mapSet, mapDelete, hk, ih h]

theorem mapGet_eq_none_of_not_mem_keys {β : Type} (c : List (String × β)) (k : String)
    (h : k ∉ c.map Prod.fst) : mapGet c k = none := by
  induction c with
  | nil => rfl
  | cons e rest ih =>
      obtain ⟨k', v'⟩ := e
      simp only [List.map_cons, List.mem_cons] at h
      push_neg at h
      have hne : ¬ k' = k := fun he => h.1 he.symm
      simp [mapGet, hne, ih h.2]

theorem mapGet_mapDelete_self_of_nodup {β : Type} (c : List (String × β)) (k : String)
    (hnd : (c.map Prod.fst).Nodup) : mapGet (mapDelete c k) k = none := by
  induction c with
  | nil => rfl
  | cons e rest ih =>
      obtain ⟨k', v'⟩ := e
      simp only [List.map_cons, List.nodup_cons] at hnd
      by_cases hk : k' = k
      · subst hk
        simp only [mapDelete, if_pos rfl]
        exact mapGet_eq_none_of_not_mem_keys rest k' hnd.1
      · simp [mapDelete, hk, mapGet, ih hnd.2]

/-! ## List and string helper lemmas -/

theorem infixAt_nil (l : List Char) : infixAt [] l = true := by
  cases l <;> simp [infixAt, List.isPrefixOf, List.isEmpty]

theorem jsIncludes_empty_needle (s : String) : jsIncludes s "" = true := by
  show infixAt (String.data "") s.data = true
  exact infixAt_nil s.data

theorem map_range_getD {α : Type} (l : List α) (d : α) :
    (List.range l.length).map (fun i => l.getD i d) = l := by
  induction l with
  | nil => rfl
  | cons a t ih =>
      simp only [List.length_cons, List.range_succ_eq_map, List.map_cons, List.map_map]
      refine congrArg (a :: ·) ?_
      have hc : ((fun i => (a :: t).getD i d) ∘ Nat.succ) = (fun i => t.getD i d) := by
        funext i; rfl
      rw [hc, ih]

/-! ## Prefetch invariant machinery -/

theorem prefetchInv_init (studies : List String) : PrefetchInv studies initState := by
  refine ⟨List.nodup_nil, ?_, ?_, ?_⟩ <;> simp [initState, PrefetchInv]

theorem prefetchInv_step {studies : List String} {outcome : Nat → Bool}
    {errOf : Nat → String} {workers : Nat} {s t : PrefetchState}
    (hinv : PrefetchInv studies s)
    (hstep : PStep studies outcome errOf workers s t) :
    PrefetchInv studies t := by
  obtain ⟨hnd, hlt, hle, hms⟩ := hinv
  cases hstep with
  | claim h hw =>
      refine ⟨?_, ?_, h, ?_⟩
      · exact List.nodup_cons.mpr ⟨fun hmem => absurd (hlt _ hmem) (lt_irrefl _), hnd⟩
      · intro i hi
        show i < s.idx + 1
        rcases List.mem_cons.mp hi with h1 | h2
        · omega
        · exact Nat.lt_succ_of_lt (hlt _ h2)
      · show (s.success : Multiset String) + (s.failed.map Prod.fst : Multiset String)
            + ((s.idx :: s.pending).map (nameAt studies) : Multiset String)
          = ((List.range (s.idx + 1)).map (nameAt studies) : Multiset String)
        have hr : List.range (s.idx + 1) = List.range s.idx ++ [s.idx] := by
          simpa using List.range_succ s.idx
        rw [List.map_cons, ← Multiset.cons_coe, Multiset.add_cons, hms, hr,
          List.map_append, ← Multiset.coe_add, List.map_singleton,
          Multiset.coe_singleton, add_comm, Multiset.singleton_add]
  | completeOk i hi ho =>
      refine ⟨hnd.erase i, fun j hj => hlt j (List.mem_of_mem_erase hj), hle, ?_⟩
      show ((s.success ++ [nameAt studies i] : List String) : Multiset String)
            + (s.failed.map Prod.fst : Multiset String)
            + ((s.pending.erase i).map (nameAt studies) : Multiset String)
          = ((List.range s.idx).map (nameAt studies) : Multiset String)
      rw [← hms]
      have hperm : List.Perm (s.pending.map (nameAt studies))
          (nameAt studies i :: (s.pending.erase i).map (nameAt studies)) :=
        (List.perm_cons_erase hi).map (nameAt studies)
      have hx : ((s.pending.map (nameAt studies) : List String) : Multiset String)
          = nameAt studies i
              ::ₘ (((s.pending.erase i).map (nameAt studies) : List String) : Multiset String) := by
        rw [Multiset.cons_coe]
        exact Multiset.coe_eq_coe.mpr hperm
      simp only [List.map_append, List.map_cons, List.map_nil, ← Multiset.coe_add]
      rw [hx, ← Multiset.singleton_add, ← Multiset.coe_singleton]
      abel
  | completeErr i hi ho =>
      refine ⟨hnd.erase i, fun j hj => hlt j (List.mem_of_mem_erase hj), hle, ?_⟩
      show (s.success : Multiset String)
            + ((s.failed ++ [(nameAt studies i, errOf i)]).map Prod.fst : Multiset String)
            + ((s.pending.erase i).map (nameAt studies) : Multiset String)
          = ((List.range s.idx).map (nameAt studies) : Multiset String)
      rw [← hms]
      have hperm : List.Perm (s.pending.map (nameAt studies))
          (nameAt studies i :: (s.pending.erase i).map (nameAt studies)) :=
        (List.perm_cons_erase hi).map (nameAt studies)
      have hx : ((s.pending.map (nameAt studies) : List String) : Multiset String)
          = nameAt studies i
              ::ₘ (((s.pending.erase i).map (nameAt studies) : List String) : Multiset String) := by
        rw [Multiset.cons_coe]
        exact Multiset.coe_eq_coe.mpr hperm
      simp only [List.map_append, List.map_cons, List.map_nil, ← Multiset.coe_add]
      rw [hx, ← Multiset.singleton_add, ← Multiset.coe_singleton]
      abel

theorem prefetchInv_reach {studies : List String} {outcome : Nat → Bool}
    {errOf : Nat → String} {workers : Nat} {s : PrefetchState}
    (hr : Relation.ReflTransGen (PStep studies outcome errOf workers) initState s) :
    PrefetchInv studies s := by
  induction hr with
  | refl => exact prefetchInv_init studies
  | tail _hsteps hstep ih => exact prefetchInv_step ih hstep

/-- Progress measure: remaining claims count double, plus in-flight items. -/
def pMeasure (studies : List String) (s : PrefetchState) : Nat :=
  2 * (studies.length - s.idx) + s.pending.length

theorem prefetch_progress {studies : List String} {outcome : Nat → Bool}
    {errOf : Nat → String} {workers : Nat} (hw : 1 ≤ workers) :
    ∀ (m : Nat) (s : PrefetchState), pMeasure studies s ≤ m → PrefetchInv studies s →
      ∃ t, Relation.ReflTransGen (PStep studies outcome errOf workers) s t ∧
        Finished studies t := by
  intro m
  induction m with
  | zero =>
      intro s hm hinv
      have hp : s.pending = [] := by
        cases hpc : s.pending with
        | nil => rfl
        | cons a rest =>
            exfalso
            unfold pMeasure at hm
            rw [hpc] at hm
            simp only [List.length_cons] at hm
            omega
      have hidx : s.idx = studies.length := by
        have hle := hinv.2.2.1
        simp [pMeasure, hp] at hm
        omega
      exact ⟨s, Relation.ReflTransGen.refl, hidx, hp⟩
  | succ n ih =>
      intro s hm hinv
      cases hpc : s.pending with
      | cons i rest =>
          have hi : i ∈ s.pending := by rw [hpc]; exact List.mem_cons_self i rest
          have herase : s.pending.erase i = rest := by
            rw [hpc]; exact List.erase_cons_head i rest
          cases houtcome : outcome i with
          | true =>
              have hstep := @PStep.completeOk studies outcome errOf workers s i hi houtcome
              have hm1 : pMeasure studies
                  ⟨s.idx, s.pending.erase i, s.success ++ [nameAt studies i], s.failed⟩ ≤ n := by
                simp only [pMeasure, herase] at hm ⊢
                rw [hpc] at hm
                simp at hm
                omega
              obtain ⟨t, hrt, hft⟩ := ih _ hm1 (prefetchInv_step hinv hstep)
              exact ⟨t, Relation.ReflTransGen.head hstep hrt, hft⟩
          | false =>
              have hstep := @PStep.completeErr studies outcome errOf workers s i hi houtcome
              have hm1 : pMeasure studies
                  ⟨s.idx, s.pending.erase i, s.success,
                    s.failed ++ [(nameAt studies i, errOf i)]⟩ ≤ n := by
                simp only [pMeasure, herase] at hm ⊢
                rw [hpc] at hm
                simp at hm
                omega
              obtain ⟨t, hrt, hft⟩ := ih _ hm1 (prefetchInv_step hinv hstep)
              exact ⟨t, Relation.ReflTransGen.head hstep hrt, hft⟩
      | nil =>
          by_cases hidx : s.idx = studies.length
          · exact ⟨s, Relation.ReflTransGen.refl, hidx, hpc⟩
          · have hlt : s.idx < studies.length := lt_of_le_of_ne hinv.2.2.1 hidx
            have hwlen : s.pending.length < workers := by rw [hpc]; simpa using hw
            have hstep := @PStep.claim studies outcome errOf workers s hlt hwlen
            have hm1 : pMeasure studies
                ⟨s.idx + 1, s.idx :: s.pending, s.success, s.failed⟩ ≤ n := by
              simp only [pMeasure, hpc] at hm ⊢
              simp at hm ⊢
              omega
            obtain ⟨t, hrt, hft⟩ := ih _ hm1 (prefetchInv_step hinv hstep)
            exact ⟨t, Relation.ReflTransGen.head hstep hrt, hft⟩

/-! ## Small helpers for the schema-cache theorems -/

/-- On a cache miss the call always goes on to probe the widget, whatever
the widget environment holds. -/
theorem probed_of_miss (w? : Option Widget) (cache : Cache) (S : String)
    (hmiss : mapGet cache (keyOf S) = none) :
    (getStudySchema w? cache S).probed = true := by
  simp only [getStudySchema, hmiss]
  cases w? with
  | none => rfl
  | some w => cases hf : fetchRaw w S <;> simp [hf]

theorem clearAllLoop_fst {alpha : Type} (removeEntity : alpha → Except String Unit)
    (t : List (String × alpha)) :
    (clearAllLoop removeEntity t).map Prod.fst = t.map Prod.snd := by
  induction t with
  | nil => rfl
  | cons e rest ih => simp [clearAllLoop, ih]

theorem searchLoop_err_skip (q : String) (c1 c2 : Cache) (k e : String) :
    searchLoop q (c1 ++ (k, CacheEntry.err e) :: c2) = searchLoop q (c1 ++ c2) := by
  induction c1 with
  | nil => simp [searchLoop, searchEntry]
  | cons entry rest ih => simp [searchLoop, ih]

theorem searchLoop_empty_query (cache : Cache) :
    searchLoop "" cache = allCachedInputs cache := by
  induction cache with
  | nil => rfl
  | cons entry rest ih =>
      obtain ⟨k, ce⟩ := entry
      cases ce with
      | err e => simp [searchLoop, searchEntry, allCachedInputs, ih]
      | ok schema =>
          simp [searchLoop, searchEntry, allCachedInputs, ih,
            jsIncludes_empty_needle (jsToLower schema.name)]

/-- Whenever a call returns a schema successfully, that schema sits in the
returned cache under the normalized key. -/
theorem success_cached (w? : Option Widget) (cache : Cache) (S : String)
    (sch : StudySchema) (st : Cache) (p : Bool)
    (h : getStudySchema w? cache S = ⟨Except.ok sch, st, p⟩) :
    mapGet st (keyOf S) = some (CacheEntry.ok sch) := by
  unfold getStudySchema at h
  cases hg : mapGet cache (keyOf S) with
  | some entry =>
      cases entry with
      | ok schema =>
          simp only [hg, SchemaCall.mk.injEq, Except.ok.injEq] at h
          rw [← h.2.1, hg, h.1]
      | err e =>
          simp only [hg, SchemaCall.mk.injEq] at h
          exact absurd h.1 (by simp)
  | none =>
      cases w? with
      | none =>
          simp only [hg, SchemaCall.mk.injEq] at h
          exact absurd h.1 (by simp)
      | some w =>
          cases hf : fetchRaw w S with
          | error msg =>
              simp only [hg, hf, SchemaCall.mk.injEq] at h
              exact absurd h.1 (by simp)
          | ok raw =>
              simp only [hg, hf, SchemaCall.mk.injEq, Except.ok.injEq] at h
              rw [← h.2.1, ← h.1]
              exact mapGet_mapSet_self cache (keyOf S) _

/-- Whenever a call throws, the thrown message sits in the returned cache
under the normalized key as a failure entry. -/
theorem error_cached (w? : Option Widget) (cache : Cache) (S : String)
    (e : String) (st : Cache) (p : Bool)
    (h : getStudySchema w? cache S = ⟨Except.error e, st, p⟩) :
    mapGet st (keyOf S) = some (CacheEntry.err e) := by
  unfold getStudySchema at h
  cases hg : mapGet cache (keyOf S) with
  | some entry =>
      cases entry with
      | ok schema =>
          simp only [hg, SchemaCall.mk.injEq] at h
          exact absurd h.1 (by simp)
      | err e0 =>
          simp only [hg, SchemaCall.mk.injEq, Except.error.injEq] at h
          rw [← h.2.1, hg, h.1]
  | none =>
      cases w? with
      | none =>
          simp only [hg, SchemaCall.mk.injEq, Except.error.injEq] at h
          rw [← h.2.1, ← h.1]
          exact mapGet_mapSet_self cache (keyOf S) _
      | some w =>
          cases hf : fetchRaw w S with
          | error msg =>
              simp only [hg, hf, SchemaCall.mk.injEq, Except.error.injEq] at h
              rw [← h.2.1, ← h.1]
              exact mapGet_mapSet_self cache (keyOf S) _
          | ok raw =>
              simp only [hg, hf, SchemaCall.mk.injEq] at h
              exact absurd h.1 (by simp)

/-- C2: after `getStudySchema(S)` succeeds, a second call with any name
that trims and case-folds to the same key returns the identical cached
schema, leaves the cache unchanged, and never goes past the cache lookup
(no second widget query), whatever widget environment the second call
sees. -/
theorem getStudySchema_cached_success_idempotent (w? : Option Widget) (cache : Cache)
    (S : String) (sch : StudySchema) (st : Cache) (p : Bool)
    (h : getStudySchema w? cache S = ⟨Except.ok sch, st, p⟩) :
    ∀ (w2? : Option Widget) (S2 : String), keyOf S2 = keyOf S →
      getStudySchema w2? st S2 = ⟨Except.ok sch, st, false⟩ := by
  intro w2? S2 hk
  have hc := success_cached w? cache S sch st p h
  simp only [getStudySchema, hk, hc]

/-- C2 witness: fetching `"  rsi "` against a widget that returns an empty
array, then calling with `"RSI"` and no widget at all, hits the cache. -/
theorem getStudySchema_cached_success_idempotent_witness :
    getStudySchema none [("rsi", CacheEntry.ok ⟨"  rsi ", []⟩)] "RSI"
      = ⟨Except.ok ⟨"  rsi ", []⟩, [("rsi", CacheEntry.ok ⟨"  rsi ", []⟩)], false⟩ :=
  getStudySchema_cached_success_idempotent
    (some ⟨some (fun _ => Except.ok (RawResult.arr [])), none⟩) [] "  rsi "
    ⟨"  rsi ", []⟩ [("rsi", CacheEntry.ok ⟨"  rsi ", []⟩)] true rfl
    none "RSI" rfl

/-- C3: after `getStudySchema(S)` throws, the failure is cached under the
normalized key, and every subsequent call for the same normalized name
throws the same recorded message without going past the cache lookup,
whatever widget environment the later call sees. -/
theorem getStudySchema_cached_error_rethrown (w? : Option Widget) (cache : Cache)
    (S : String) (e : String) (st : Cache) (p : Bool)
    (h : getStudySchema w? cache S = ⟨Except.error e, st, p⟩) :
    mapGet st (keyOf S) = some (CacheEntry.err e) ∧
    ∀ (w2? : Option Widget) (S2 : String), keyOf S2 = keyOf S →
      getStudySchema w2? st S2 = ⟨Except.error e, st, false⟩ := by
  have hc := error_cached w? cache S e st p h
  exact ⟨hc, fun w2? S2 hk => by simp only [getStudySchema, hk, hc]⟩

/-- C3 witness: a failed fetch for `"macd"` (no widget available) is
cached, and the follow-up call rethrows from the cache. -/
theorem getStudySchema_cached_error_rethrown_witness :
    mapGet [("macd", CacheEntry.err widgetUnavailableMsg)] (keyOf "macd")
      = some (CacheEntry.err widgetUnavailableMsg) ∧
    ∀ (w2? : Option Widget) (S2 : String), keyOf S2 = keyOf "macd" →
      getStudySchema w2? [("macd", CacheEntry.err widgetUnavailableMsg)] S2
        = ⟨Except.error widgetUnavailableMsg,
           [("macd", CacheEntry.err widgetUnavailableMsg)], false⟩ :=
  getStudySchema_cached_error_rethrown none [] "macd" widgetUnavailableMsg
    [("macd", CacheEntry.err widgetUnavailableMsg)] true rfl

/-- C9: on a cache miss with no widget available, the call throws
"TradingView widget not available" and caches that failure under the
normalized key; afterwards every call for the same normalized name throws
the cached message without going past the cache lookup even when a widget
has become available, and only after `clearStudyCache(S)` does a call
probe the widget again. -/
theorem widget_unavailable_error_sticks (cache : Cache) (S : String)
    (hmiss : mapGet cache (keyOf S) = none) :
    getStudySchema none cache S
      = ⟨Except.error widgetUnavailableMsg,
         mapSet cache (keyOf S) (CacheEntry.err widgetUnavailableMsg), true⟩ ∧
    (∀ (w : Widget) (S2 : String), keyOf S2 = keyOf S →
      getStudySchema (some w)
          (mapSet cache (keyOf S) (CacheEntry.err widgetUnavailableMsg)) S2
        = ⟨Except.error widgetUnavailableMsg,
           mapSet cache (keyOf S) (CacheEntry.err widgetUnavailableMsg), false⟩) ∧
    (∀ w : Widget,
      (getStudySchema (some w)
          (clearStudyCache (some S)
            (mapSet cache (keyOf S) (CacheEntry.err widgetUnavailableMsg))) S).probed
        = true) := by
  refine ⟨?_, ?_, ?_⟩
  · simp only [getStudySchema, hmiss]
  · intro w S2 hk
    simp only [getStudySchema, hk, mapGet_mapSet_self]
  · intro w
    by_cases hS : S = ""
    · subst hS
      simp only [clearStudyCache, if_pos rfl]
      exact probed_of_miss (some w) [] "" rfl
    · simp only [clearStudyCache, if_neg hS]
      rw [mapDelete_mapSet_of_miss cache (keyOf S) _ hmiss]
      exact probed_of_miss (some w) cache S hmiss

/-- C9 witness at the empty cache and study name `"rsi"`. -/
theorem widget_unavailable_error_sticks_witness :
    getStudySchema none [] "rsi"
      = ⟨Except.error widgetUnavailableMsg,
         mapSet [] (keyOf "rsi") (CacheEntry.err widgetUnavailableMsg), true⟩ ∧
    (∀ (w : Widget) (S2 : String), keyOf S2 = keyOf "rsi" →
      getStudySchema (some w)
          (mapSet [] (keyOf "rsi") (CacheEntry.err widgetUnavailableMsg)) S2
        = ⟨Except.error widgetUnavailableMsg,
           mapSet [] (keyOf "rsi") (CacheEntry.err widgetUnavailableMsg), false⟩) ∧
    (∀ w : Widget,
      (getStudySchema (some w)
          (clearStudyCache (some "rsi")
            (mapSet [] (keyOf "rsi") (CacheEntry.err widgetUnavailableMsg))) "rsi").probed
        = true) :=
  widget_unavailable_error_sticks [] "rsi" rfl

/-- C10: on a cache miss, a widget that exposes neither accessor makes
`getStudySchema` succeed with an empty inputs schema, cached as a success,
so `hasStudy` holds afterwards. -/
theorem missing_accessors_yield_empty_success (cache : Cache) (S : String)
    (hmiss : mapGet cache (keyOf S) = none) (w : Widget)
    (h1 : w.getStudyInputs = none) (h2 : w.activeChartGetStudyInputs = none) :
    getStudySchema (some w) cache S
      = ⟨Except.ok ⟨S, []⟩, mapSet cache (keyOf S) (CacheEntry.ok ⟨S, []⟩), true⟩ ∧
    hasStudy S (getStudySchema (some w) cache S).cache = true := by
  have hfetch : fetchRaw w S = Except.ok RawResult.notArray := by
    simp [fetchRaw, h1, h2]
  have hcall : getStudySchema (some w) cache S
      = ⟨Except.ok ⟨S, []⟩, mapSet cache (keyOf S) (CacheEntry.ok ⟨S, []⟩), true⟩ := by
    simp only [getStudySchema, hmiss, hfetch, normalizeRaw]
  refine ⟨hcall, ?_⟩
  rw [hcall]
  simp only [hasStudy, mapGet_mapSet_self]

/-- C10 witness: accessor-free widget, empty cache, study `"rsi"`. -/
theorem missing_accessors_yield_empty_success_witness :
    getStudySchema (some ⟨none, none⟩) [] "rsi"
      = ⟨Except.ok ⟨"rsi", []⟩, mapSet [] (keyOf "rsi") (CacheEntry.ok ⟨"rsi", []⟩), true⟩ ∧
    hasStudy "rsi" (getStudySchema (some ⟨none, none⟩) [] "rsi").cache = true :=
  missing_accessors_yield_empty_success [] "rsi" rfl ⟨none, none⟩ rfl rfl

/-- C7: for a non-empty study name `S`, `clearStudyCache(S)` removes only
the entry under `S`'s normalized key: every other name with a different
normalized key that was cached successfully still satisfies `hasStudy`,
and (when the cache keys are distinct, as `Map` guarantees) the normalized
key of `S` itself is gone. -/
theorem clearStudyCache_single_frame (cache : Cache) (S O : String) (hS : S ≠ "")
    (hkey : keyOf O ≠ keyOf S) (hO : hasStudy O cache = true) :
    hasStudy O (clearStudyCache (some S) cache) = true ∧
    ((cache.map Prod.fst).Nodup →
      mapGet (clearStudyCache (some S) cache) (keyOf S) = none) := by
  constructor
  · unfold hasStudy at hO ⊢
    simp only [clearStudyCache, if_neg hS, mapGet_mapDelete_ne cache (keyOf S) (keyOf O) hkey]
    exact hO
  · intro hnd
    simp only [clearStudyCache, if_neg hS]
    exact mapGet_mapDelete_self_of_nodup cache (keyOf S) hnd

/-- C7 witness: clearing `"MACD"` keeps `"rsi"` cached and removes the
`"macd"` key. -/
theorem clearStudyCache_single_frame_witness :
    hasStudy "rsi" (clearStudyCache (some "MACD")
        [("rsi", CacheEntry.ok ⟨"RSI", []⟩), ("macd", CacheEntry.ok ⟨"MACD", []⟩)]) = true ∧
    (((([("rsi", CacheEntry.ok (⟨"RSI", []⟩ : StudySchema)),
        ("macd", CacheEntry.ok ⟨"MACD", []⟩)] : Cache).map Prod.fst).Nodup) →
      mapGet (clearStudyCache (some "MACD")
          [("rsi", CacheEntry.ok ⟨"RSI", []⟩), ("macd", CacheEntry.ok ⟨"MACD", []⟩)])
          (keyOf "MACD") = none) :=
  clearStudyCache_single_frame
    [("rsi", CacheEntry.ok ⟨"RSI", []⟩), ("macd", CacheEntry.ok ⟨"MACD", []⟩)]
    "MACD" "rsi" (by decide) (by decide) (by decide)

/-- C4 counterexample: an input element with a missing `id` is normalized
with `id = "undefined"` (`String(undefined)`), not the empty string, so
"every missing field defaults to the empty string, including elements
with a missing id" fails. -/
theorem normalize_missing_id_counterexample :
    (normalizeRaw (RawResult.arr [⟨none, none, none, none⟩])).map
        StudyInputInformation.id = ["undefined"] ∧
    ¬ ((normalizeInput ⟨none, none, none, none⟩).id = "") := by
  constructor
  · rfl
  · intro h
    exact absurd h (by decide)

/-- C4 (amended): non-array raw results become an empty inputs sequence;
for every input element, missing `name`, `localizedName` and `type`
fields default to the empty string, with `localizedName` falling back to
`name` when absent; but a missing `id` is stringified to `"undefined"`,
not the empty string (and a present id is kept as is). -/
theorem getStudySchema_normalization (i : RawInput) :
    normalizeRaw RawResult.notArray = [] ∧
    (∀ elems : List RawInput, normalizeRaw (RawResult.arr elems) = elems.map normalizeInput) ∧
    (i.name = none → (normalizeInput i).name = "") ∧
    (i.type = none → (normalizeInput i).type = "") ∧
    (i.localizedName = none →
      (normalizeInput i).localizedName = (normalizeInput i).name) ∧
    (∀ s, i.localizedName = some s → (normalizeInput i).localizedName = s) ∧
    (i.id = none → (normalizeInput i).id = "undefined") ∧
    (∀ s, i.id = some s → (normalizeInput i).id = s) := by
  refine ⟨rfl, fun _ => rfl, ?_, ?_, ?_, ?_, ?_, ?_⟩
  · intro h; simp [normalizeInput, h]
  · intro h; simp [normalizeInput, h]
  · intro h; simp [normalizeInput, h]
  · intro s h; simp [normalizeInput, h]
  · intro h; simp [normalizeInput, h, jsString]
  · intro s h; simp [normalizeInput, h, jsString]

/-- C4 witness: the name default applies to an element whose id is
present, and the missing id of another element becomes `"undefined"`. -/
theorem getStudySchema_normalization_witness :
    (normalizeInput ⟨some "in_0", none, none, some "integer"⟩).name = "" ∧
    (normalizeInput ⟨none, some "length", none, some "integer"⟩).id = "undefined" :=
  ⟨(getStudySchema_normalization ⟨some "in_0", none, none, some "integer"⟩).2.2.1 rfl,
   (getStudySchema_normalization ⟨none, some "length", none, some "integer"⟩).2.2.2.2.2.2.1 rfl⟩

/-- C5: the number of workers spawned by `prefetchStudySchemas` is
`min(max(1, c0), N)` with `c0` defaulting to 8: capped by the number of
names, floored at 1 for zero or negative inputs, and at least 1 whenever
there is at least one name. -/
theorem prefetch_effective_workers (concurrency? : Option Int) (N : Nat) :
    numWorkers concurrency? N = min (max 1 (concurrency?.getD 8)) (N : Int) ∧
    numWorkers none N = min 8 (N : Int) ∧
    (∀ c : Int, c ≤ 0 → numWorkers (some c) N = min 1 (N : Int)) ∧
    numWorkers concurrency? N ≤ (N : Int) ∧
    (1 ≤ N → 1 ≤ numWorkers concurrency? N) := by
  refine ⟨rfl, ?_, ?_, min_le_right _ _, ?_⟩
  · simp [numWorkers]
  · intro c hc
    have hmax : max 1 c = 1 := max_eq_left (le_trans hc zero_le_one)
    simp [numWorkers, hmax]
  · intro hN
    refine le_min (le_max_left _ _) ?_
    exact_mod_cast hN

/-- C5 witness: a negative concurrency is floored, and a positive pool on
a non-empty list keeps at least one worker. -/
theorem prefetch_effective_workers_witness :
    numWorkers (some (-5)) 3 = min 1 (3 : Int) ∧ 1 ≤ numWorkers (some 2) 4 :=
  ⟨(prefetch_effective_workers (some (-5)) 3).2.2.1 (-5) (by decide),
   (prefetch_effective_workers (some 2) 4).2.2.2.2 (by decide)⟩

/-- C6: `searchCachedInputs` with the empty query returns every input of
every successfully cached study (the empty query matches every study
name), and error entries anywhere in the cache are skipped for every
query. -/
theorem searchCachedInputs_scan_properties :
    (∀ cache : Cache, searchCachedInputs "" cache = allCachedInputs cache) ∧
    (∀ (query : String) (c1 c2 : Cache) (k e : String),
      searchCachedInputs query (c1 ++ (k, CacheEntry.err e) :: c2)
        = searchCachedInputs query (c1 ++ c2)) := by
  constructor
  · intro cache
    show searchLoop (jsToLower (jsTrim "")) cache = allCachedInputs cache
    have hq : jsToLower (jsTrim "") = "" := rfl
    rw [hq]
    exact searchLoop_empty_query cache
  · intro query c1 c2 k e
    exact searchLoop_err_skip (jsToLower (jsTrim query)) c1 c2 k e

/-- C8: with a chart handle present, each of the three clear-all
operations attempts to remove every table entry (whatever the removal
outcomes are — failures are recorded, not surfaced) and returns with the
table empty. -/
theorem clearAll_attempts_every_entry_and_empties {alpha : Type}
    (removeEntity : alpha → Except String Unit)
    (tInd tPat tTgt : List (String × alpha)) :
    ((clearAllIndicators (some removeEntity) tInd).2 = [] ∧
      (clearAllIndicators (some removeEntity) tInd).1.map Prod.fst = tInd.map Prod.snd) ∧
    ((clearAllPatterns (some removeEntity) tPat).2 = [] ∧
      (clearAllPatterns (some removeEntity) tPat).1.map Prod.fst = tPat.map Prod.snd) ∧
    ((clearAllPriceTargets (some removeEntity) tTgt).2 = [] ∧
      (clearAllPriceTargets (some removeEntity) tTgt).1.map Prod.fst = tTgt.map Prod.snd) :=
  ⟨⟨rfl, clearAllLoop_fst removeEntity tInd⟩,
   ⟨rfl, clearAllLoop_fst removeEntity tPat⟩,
   ⟨rfl, clearAllLoop_fst removeEntity tTgt⟩⟩

/-- C1: for any name list and any concurrency `c` with `1 ≤ c ≤ N`, every
run of the worker pool can always be completed (the operation never gets
stuck or throws — each claimed item lands in `success` or `failed` via
the `try`/`catch`), and every completed run records exactly the `N` input
names: `success.length + failed.length = N`, and the recorded names (as a
multiset) are exactly the input names, each processed exactly once. -/
theorem prefetch_total_and_partition (studies : List String) (outcome : Nat → Bool)
    (errOf : Nat → String) (c : Int) (hc1 : 1 ≤ c) (hcN : c ≤ (studies.length : Int))
    (s : PrefetchState)
    (hr : Relation.ReflTransGen
        (PStep studies outcome errOf (numWorkers (some c) studies.length).toNat) initState s) :
    (∃ t, Relation.ReflTransGen
        (PStep studies outcome errOf (numWorkers (some c) studies.length).toNat) s t ∧
      Finished studies t) ∧
    (Finished studies s →
      s.success.length + s.failed.length = studies.length ∧
      (s.success : Multiset String) + (s.failed.map Prod.fst : Multiset String)
        = (studies : Multiset String)) := by
  have hnw : numWorkers (some c) studies.length = c := by
    show min (max 1 c) (studies.length : Int) = c
    rw [max_eq_right hc1, min_eq_left hcN]
  have hw : 1 ≤ (numWorkers (some c) studies.length).toNat := by
    rw [hnw]; omega
  have hinv := prefetchInv_reach hr
  constructor
  · exact prefetch_progress hw (pMeasure studies s) s le_rfl hinv
  · rintro ⟨hidx, hpend⟩
    obtain ⟨_, _, _, hms⟩ := hinv
    rw [hpend, hidx] at hms
    simp only [List.map_nil, Multiset.coe_nil, add_zero] at hms
    have hnames : (List.range studies.length).map (nameAt studies) = studies := by
      have hfun : nameAt studies = fun i => studies.getD i "" := rfl
      rw [hfun]
      exact map_range_getD studies ""
    rw [hnames] at hms
    refine ⟨?_, hms⟩
    have hcard := congrArg Multiset.card hms
    simpa [Multiset.coe_card] using hcard

/-- C1 witness: one study, one worker, starting state. -/
theorem prefetch_total_and_partition_witness :
    (∃ t, Relation.ReflTransGen
        (PStep ["RSI"] (fun _ => true) (fun _ => "")
          (numWorkers (some 1) (List.length ["RSI"])).toNat) initState t ∧
      Finished ["RSI"] t) ∧
    (Finished ["RSI"] initState →
      initState.success.length + initState.failed.length = List.length ["RSI"] ∧
      (initState.success : Multiset String)
          + (initState.failed.map Prod.fst : Multiset String)
        = (["RSI"] : Multiset String)) :=
  prefetch_total_and_partition ["RSI"] (fun _ => true) (fun _ => "") 1 (by decide) (by decide)
    initState Relation.ReflTransGen.refl
